import Mathlib

/-!
Verification of the coder-composition / configuration-encoding logic of
`sdks/python/apache_beam/io/external/kafka.py` (`ReadFromKafka`).

The file shallowly embeds:
* the wire-level coders (`BytesCoder`, `LengthPrefixCoder`, `IterableCoder`,
  `TupleCoder`) used by `kafka.py` — these live in `apache_beam.coders`,
  outside the visible source, so they are modelled from the spec;
* the three static encoders `_encode_map`, `_encode_list`, `_encode_str`
  and the `expand` method, translated directly from `kafka.py`.

Bytes are modelled as `List Nat` (each entry < 256 by construction).
-/

namespace Beam

/-- Fuel-driven worker for `varint`; the fuel only forces structural
recursion and never runs out when it starts at least at `n`. -/
def varintGo : Nat → Nat → List Nat
  | 0, _ => []
  | fuel + 1, n =>
    if n < 128 then [n]
    else (128 + n % 128) :: varintGo fuel (n / 128)

/-- Unsigned LEB128 (varint) encoding of a natural number, the agreed
integer encoding used by the length prefix of `LengthPrefixCoder`.
Modelled from the spec: `apache_beam.coders.coders.LengthPrefixCoder`
is not under the visible source; the spec fixes "a single agreed integer
encoding — e.g., unsigned LEB128". -/
def varint (n : Nat) : List Nat :=
  varintGo (n + 1) n

/-- Fixed-width (4-byte big-endian) encoding of an element count, used by
the iterable coder. Modelled from the spec: the iterable count is "a count
(number of elements, fixed-width integer)". -/
def bigEndian32 (n : Nat) : List Nat :=
  [n / 16777216 % 256, n / 65536 % 256, n / 256 % 256, n % 256]

/-- UTF-8 encoding of a single character (by code point). -/
def utf8Char (c : Char) : List Nat :=
  if c.toNat < 128 then [c.toNat]
  else if c.toNat < 2048 then [192 + c.toNat / 64, 128 + c.toNat % 64]
  else if c.toNat < 65536 then
    [224 + c.toNat / 4096, 128 + c.toNat / 64 % 64, 128 + c.toNat % 64]
  else
    [240 + c.toNat / 262144, 128 + c.toNat / 4096 % 64,
     128 + c.toNat / 64 % 64, 128 + c.toNat % 64]

/-- UTF-8 encoding of a string, what Python's `str.encode('utf-8')`
produces. -/
def utf8Str (s : String) : List Nat :=
  s.data.flatMap utf8Char

/-- A Coder tree: one node per coder object constructed in `kafka.py`
(`BytesCoder`, `LengthPrefixCoder`, `IterableCoder`, `TupleCoder`). -/
inductive Coder where
  | bytes : Coder
  | lengthPrefixed : Coder → Coder
  | iterable : Coder → Coder
  | tuple : List Coder → Coder

mutual

/-- Number of Coder nodes in a Coder tree. -/
def Coder.size : Coder → Nat
  | .bytes => 1
  | .lengthPrefixed inner => 1 + inner.size
  | .iterable elem => 1 + elem.size
  | .tuple cs => 1 + Coder.sizeList cs

/-- Total number of Coder nodes in a list of Coder trees. -/
def Coder.sizeList : List Coder → Nat
  | [] => 0
  | c :: cs => c.size + Coder.sizeList cs

end

/-- The value shapes a Coder tree can encode. -/
inductive EncVal where
  | bytes : List Nat → EncVal
  | array : List EncVal → EncVal
  | tuple : List EncVal → EncVal

/-- Encode each element of a sequence with the given element encoder,
concatenating the results; fails if any element fails. -/
def seqEncode (f : EncVal → Option (List Nat)) : List EncVal → Option (List Nat)
  | [] => some []
  | v :: vs =>
    match f v, seqEncode f vs with
    | some b, some bs => some (b ++ bs)
    | _, _ => none

/-- Encode tuple components positionally with the given encoder; fails on
an arity mismatch. -/
def tupleEncode (f : Coder → EncVal → Option (List Nat)) :
    List Coder → List EncVal → Option (List Nat)
  | [], [] => some []
  | c :: cs, v :: vs =>
    match f c v, tupleEncode f cs vs with
    | some b, some bs => some (b ++ bs)
    | _, _ => none
  | _, _ => none

/-- Fuel-driven worker for `Coder.encode`; the fuel only forces structural
recursion and is consumed once per tree level, so any fuel at least the
node count of the coder suffices. -/
def Coder.encodeF : Nat → Coder → EncVal → Option (List Nat)
  | 0, _, _ => none
  | fuel + 1, c, v =>
    match c, v with
    | .bytes, .bytes bs => some bs
    | .lengthPrefixed inner, v =>
      match Coder.encodeF fuel inner v with
      | some bs => some (varint bs.length ++ bs)
      | none => none
    | .iterable elem, .array vs =>
      match seqEncode (Coder.encodeF fuel elem) vs with
      | some bss => some (bigEndian32 vs.length ++ bss)
      | none => none
    | .tuple cs, .tuple vs => tupleEncode (Coder.encodeF fuel) cs vs
    | _, _ => none

/-- Modelled from the spec: the `encode` operation of the
`apache_beam.coders` coder classes used by `kafka.py`, which are not under
the visible source. `Bytes` is the identity on raw bytes; `LengthPrefixed`
emits the varint length of the inner encoding followed by those bytes;
`Iterable` emits a fixed-width count followed by the element encodings in
order; `Tuple` concatenates the component encodings in positional order and
fails on an arity mismatch. Shape mismatches yield `none`. -/
def Coder.encode (c : Coder) (v : EncVal) : Option (List Nat) :=
  Coder.encodeF c.size c v

instance {ε α : Type} [DecidableEq ε] [DecidableEq α] :
    DecidableEq (Except ε α) := fun a b =>
  match a, b with
  | .ok x, .ok y =>
    if h : x = y then .isTrue (by rw [h])
    else .isFalse (by intro hc; cases hc; exact h rfl)
  | .error e, .error f =>
    if h : e = f then .isTrue (by rw [h])
    else .isFalse (by intro hc; cases hc; exact h rfl)
  | .ok _, .error _ => .isFalse (by intro hc; cases hc)
  | .error _, .ok _ => .isFalse (by intro hc; cases hc)

/-- A Python value as seen by the encoders: either a `str`, or some other
object carrying only its runtime type name (ints, None, ...). -/
inductive PyVal where
  | str : String → PyVal
  | nonStr : String → PyVal
deriving DecidableEq, Repr

/-- A Python exception raised by the code under analysis:
`attributeError t f` models `AttributeError: 't' object has no attribute
'f'` (raised by duck-typed attribute access), `exn msg` models a plain
`Exception(msg)`. -/
inductive PyError where
  | attributeError : String → String → PyError
  | exn : String → PyError
deriving DecidableEq, Repr

/-- Python's `v.encode('utf-8')`: succeeds on a `str`, raises
`AttributeError` on any other object (no `encode` attribute). -/
def pyEncodeUtf8 : PyVal → Except PyError (List Nat)
  | .str s => .ok (utf8Str s)
  | .nonStr t => .error (.attributeError t "encode")

/-- Model of `ConfigValue` from `external_transforms_pb2`: an identifier
(urn) chain paired with an encoded payload. -/
structure ConfigValue where
  coder_urn : List String
  payload : List Nat
deriving DecidableEq, Repr

namespace ReadFromKafka

/-- The coder tree built by `_encode_str`:
`LengthPrefixCoder(BytesCoder())`. -/
def strCoder : Coder := .lengthPrefixed .bytes

/-- The coder tree built by `_encode_list`:
`IterableCoder(LengthPrefixCoder(BytesCoder()))`. -/
def listCoder : Coder := .iterable (.lengthPrefixed .bytes)

/-- The coder tree built by `_encode_map`:
`IterableCoder(TupleCoder([LengthPrefixCoder(BytesCoder()),
LengthPrefixCoder(BytesCoder())]))`. -/
def mapCoder : Coder :=
  .iterable (.tuple [.lengthPrefixed .bytes, .lengthPrefixed .bytes])

/-- The urn list hard-coded in `_encode_str`. -/
def strUrns : List String := ["beam:coder:bytes:v1"]

/-- The urn list hard-coded in `_encode_list`. -/
def listUrns : List String := ["beam:coder:iterable:v1", "beam:coder:bytes:v1"]

/-- The urn list hard-coded in `_encode_map`. -/
def mapUrns : List String :=
  ["beam:coder:iterable:v1", "beam:coder:kv:v1",
   "beam:coder:bytes:v1", "beam:coder:bytes:v1"]

/-- The list comprehension of `_encode_list`:
`[val.encode('utf-8') for val in list_obj]` — left to right, stopping at
the first element whose `.encode` call raises. -/
def encodeElems : List PyVal → Except PyError (List (List Nat))
  | [] => .ok []
  | v :: vs =>
    match pyEncodeUtf8 v with
    | .error e => .error e
    | .ok b =>
      match encodeElems vs with
      | .error e => .error e
      | .ok bs => .ok (b :: bs)

/-- The list comprehension of `_encode_map`:
`[(key.encode('utf-8'), val.encode('utf-8')) for key, val in
dict_obj.items()]` — entries in dict iteration order, key before value,
stopping at the first raising `.encode` call. -/
def encodeEntries :
    List (PyVal × PyVal) → Except PyError (List (List Nat × List Nat))
  | [] => .ok []
  | (k, v) :: kvs =>
    match pyEncodeUtf8 k with
    | .error e => .error e
    | .ok kb =>
      match pyEncodeUtf8 v with
      | .error e => .error e
      | .ok vb =>
        match encodeEntries kvs with
        | .error e => .error e
        | .ok rest => .ok ((kb, vb) :: rest)

/-- Model of `ReadFromKafka._encode_map`: encodes the dict entries to UTF-8 byte
pairs, then runs `mapCoder` over them, pairing the payload with the
hard-coded urn chain. (The coder run cannot fail on the well-shaped value
built here; a failure is surfaced as a plain exception.) -/
def encode_map (dict_obj : List (PyVal × PyVal)) :
    Except PyError ConfigValue :=
  match encodeEntries dict_obj with
  | .error e => .error e
  | .ok kv_list =>
    match mapCoder.encode
        (.array (kv_list.map fun kv => .tuple [.bytes kv.1, .bytes kv.2])) with
    | some p => .ok ⟨mapUrns, p⟩
    | none => .error (.exn "shape mismatch")

/-- Model of `ReadFromKafka._encode_list`: encodes the elements to UTF-8 bytes, then
runs `listCoder` over them, pairing the payload with the hard-coded urn
chain. -/
def encode_list (list_obj : List PyVal) : Except PyError ConfigValue :=
  match encodeElems list_obj with
  | .error e => .error e
  | .ok encoded_list =>
    match listCoder.encode (.array (encoded_list.map .bytes)) with
    | some p => .ok ⟨listUrns, p⟩
    | none => .error (.exn "shape mismatch")

/-- Model of `ReadFromKafka._encode_str`: encodes the string to UTF-8 bytes, runs
`strCoder` over them, pairing the payload with the hard-coded urn chain. -/
def encode_str (str_obj : PyVal) : Except PyError ConfigValue :=
  match pyEncodeUtf8 str_obj with
  | .error e => .error e
  | .ok encoded_str =>
    match strCoder.encode (.bytes encoded_str) with
    | some p => .ok ⟨strUrns, p⟩
    | none => .error (.exn "shape mismatch")

/-- The default Kafka deserializer class name,
`ReadFromKafka.byte_array_deserializer`. -/
def byte_array_deserializer : String :=
  "org.apache.kafka.common.serialization.ByteArrayDeserializer"

/-- The fields a `ReadFromKafka` instance carries after `__init__`
(the urn is the constant `beam:external:java:kafka:read:v1`). A dict is
modelled as its entry list in iteration order. -/
structure Transform where
  consumer_config : List (PyVal × PyVal)
  topics : List PyVal
  key_deserializer : PyVal := .str byte_array_deserializer
  value_deserializer : PyVal := .str byte_array_deserializer
  expansion_service : String := "localhost:8097"

/-- The input value handed to `expand`: either a `pvalue.PBegin` or any
other pipeline value. -/
inductive PValue where
  | pBegin : PValue
  | pCollection : PValue
deriving DecidableEq, Repr

/-- Model of `ReadFromKafka.expand`: rejects any input that is not a
`PBegin`, then builds the `args` dict by encoding the four named arguments
in the written order (`consumer_config`, `topics`, `key_deserializer`,
`value_deserializer`); the first raising encode call aborts the whole
construction. The result models the `configuration` field of the
`ExternalConfigurationPayload`; the external-transform application it is
handed to is the out-of-scope transport. -/
def expand (t : Transform) (pbegin : PValue) :
    Except PyError (List (String × ConfigValue)) :=
  match pbegin with
  | .pCollection => .error (.exn "ReadFromKafka must be a root transform")
  | .pBegin =>
    match encode_map t.consumer_config with
    | .error e => .error e
    | .ok cc =>
      match encode_list t.topics with
      | .error e => .error e
      | .ok tp =>
        match encode_str t.key_deserializer with
        | .error e => .error e
        | .ok kd =>
          match encode_str t.value_deserializer with
          | .error e => .error e
          | .ok vd =>
            .ok [("consumer_config", cc), ("topics", tp),
                 ("key_deserializer", kd), ("value_deserializer", vd)]

end ReadFromKafka

mutual

/-- The pre-order identifier chain a Coder tree would emit if every Coder
node contributed exactly one identifier of its own (the reading of the
claim under scrutiny): root first, then each child's chain in declaration
order. The per-variant identifiers are the beam urns; `LengthPrefixCoder`
gets the registry urn `beam:coder:length_prefix:v1`. -/
def nodePreorder : Coder → List String
  | .bytes => ["beam:coder:bytes:v1"]
  | .lengthPrefixed inner => "beam:coder:length_prefix:v1" :: nodePreorder inner
  | .iterable elem => "beam:coder:iterable:v1" :: nodePreorder elem
  | .tuple cs => "beam:coder:kv:v1" :: nodePreorderList cs

/-- Pre-order chains of a list of children, concatenated in order. -/
def nodePreorderList : List Coder → List String
  | [] => []
  | c :: cs => nodePreorder c ++ nodePreorderList cs

end

mutual

/-- The pre-order identifier chain of a Coder tree in which a
`LengthPrefixed` node contributes no identifier of its own: the single urn
`beam:coder:bytes:v1` of its `Bytes` child stands for the whole
length-prefixed-bytes unit. This is the traversal the hard-coded urn lists
of `kafka.py` realize. -/
def collapsedChain : Coder → List String
  | .bytes => ["beam:coder:bytes:v1"]
  | .lengthPrefixed inner => collapsedChain inner
  | .iterable elem => "beam:coder:iterable:v1" :: collapsedChain elem
  | .tuple cs => "beam:coder:kv:v1" :: collapsedChainList cs

/-- Collapsed chains of a list of children, concatenated in order. -/
def collapsedChainList : List Coder → List String
  | [] => []
  | c :: cs => collapsedChain c ++ collapsedChainList cs

end

/-- Length-prefixed framing of a byte string: its varint length followed
by the bytes themselves. -/
def lpBytes (bs : List Nat) : List Nat :=
  varint bs.length ++ bs

/-- Concatenation of the length-prefixed framings of a list of byte
strings (the element section of a list payload). -/
def lpConcat : List (List Nat) → List Nat
  | [] => []
  | b :: bs => lpBytes b ++ lpConcat bs

/-- Concatenation of the key/value tuple encodings of a list of byte-pair
entries (the entry section of a map payload). -/
def kvConcat : List (List Nat × List Nat) → List Nat
  | [] => []
  | kv :: kvs => lpBytes kv.1 ++ lpBytes kv.2 ++ kvConcat kvs

/-- Reading of a varint from the front of a byte list, returning the value
and the remaining bytes. -/
def parseVarint : List Nat → Option (Nat × List Nat)
  | [] => none
  | b :: rest =>
    if b < 128 then some (b, rest)
    else
      match parseVarint rest with
      | some (n, r) => some (n * 128 + (b - 128), r)
      | none => none

/-- Reading of one UTF-8-encoded code point from the front of a byte list,
returning the code point and the remaining bytes. -/
def utf8DecodeChar : List Nat → Option (Nat × List Nat)
  | [] => none
  | b0 :: r0 =>
    if b0 < 128 then some (b0, r0)
    else if b0 < 192 then none
    else if b0 < 224 then
      match r0 with
      | b1 :: r1 => some ((b0 - 192) * 64 + (b1 - 128), r1)
      | [] => none
    else if b0 < 240 then
      match r0 with
      | b1 :: b2 :: r2 =>
        some ((b0 - 224) * 4096 + (b1 - 128) * 64 + (b2 - 128), r2)
      | _ => none
    else if b0 < 248 then
      match r0 with
      | b1 :: b2 :: b3 :: r3 =>
        some ((b0 - 240) * 262144 + (b1 - 128) * 4096
          + (b2 - 128) * 64 + (b3 - 128), r3)
      | _ => none
    else none

/-- UTF-8 bytes of a `str`, and `[]` on a non-`str` (used only to state
what a successful encode run returned). -/
def pyUtf8D : PyVal → List Nat
  | .str s => utf8Str s
  | .nonStr _ => []

theorem varintGo_eq_of_lt {fuel n : Nat} (h : n < fuel) :
    varintGo fuel n =
      if n < 128 then [n] else (128 + n % 128) :: varint (n / 128) := by
  induction fuel using Nat.strong_induction_on generalizing n with
  | _ fuel ih =>
    match fuel with
    | 0 => omega
    | fuel + 1 =>
      show (if n < 128 then [n] else (128 + n % 128) :: varintGo fuel (n / 128))
          = _
      by_cases h128 : n < 128
      · simp [h128]
      · have h1 : varintGo fuel (n / 128) =
            if n / 128 < 128 then [n / 128]
            else (128 + n / 128 % 128) :: varint (n / 128 / 128) :=
          ih fuel (Nat.lt_succ_self fuel) (by omega)
        have h2 : varint (n / 128) =
            if n / 128 < 128 then [n / 128]
            else (128 + n / 128 % 128) :: varint (n / 128 / 128) :=
          ih (n / 128 + 1) (by omega) (Nat.lt_succ_self _)
        simp [h128, h1, h2]

/-- The defining recursion of `varint`. -/
theorem varint_eq (n : Nat) :
    varint n =
      if n < 128 then [n] else (128 + n % 128) :: varint (n / 128) :=
  varintGo_eq_of_lt (Nat.lt_succ_self n)

/-- Reading back a varint from the front of a byte list recovers the
encoded number and leaves the rest untouched. -/
theorem parseVarint_varint (n : Nat) (rest : List Nat) :
    parseVarint (varint n ++ rest) = some (n, rest) := by
  induction n using Nat.strong_induction_on generalizing rest with
  | _ n ih =>
    rw [varint_eq]
    by_cases h : n < 128
    · simp [h, parseVarint]
    · have hdiv : n / 128 < n := Nat.div_lt_self (by omega) (by omega)
      have hb : ¬ (128 + n % 128 < 128) := by omega
      simp only [h, if_false, List.cons_append, parseVarint, hb,
        ih (n / 128) hdiv rest]
      simp only [Option.some.injEq, Prod.mk.injEq, and_true]
      omega

theorem char_toNat_lt (c : Char) : c.toNat < 1114112 := by
  rcases c.valid with h | ⟨_, h2⟩
  · exact Nat.lt_trans h (by decide)
  · exact h2

/-- Reading back one UTF-8-encoded character from the front of a byte list
recovers its code point and leaves the rest untouched. -/
theorem utf8DecodeChar_utf8Char (c : Char) (rest : List Nat) :
    utf8DecodeChar (utf8Char c ++ rest) = some (c.toNat, rest) := by
  have hlt : c.toNat < 1114112 := char_toNat_lt c
  unfold utf8Char
  by_cases h1 : c.toNat < 128
  · simp [h1, utf8DecodeChar]
  · by_cases h2 : c.toNat < 2048
    · have e1 : ¬ (192 + c.toNat / 64 < 128) := by omega
      have e2 : ¬ (192 + c.toNat / 64 < 192) := by omega
      have e3 : 192 + c.toNat / 64 < 224 := by omega
      simp [h1, h2, utf8DecodeChar, e1, e2, e3]
      omega
    · by_cases h3 : c.toNat < 65536
      · have e1 : ¬ (224 + c.toNat / 4096 < 128) := by omega
        have e2 : ¬ (224 + c.toNat / 4096 < 192) := by omega
        have e3 : ¬ (224 + c.toNat / 4096 < 224) := by omega
        have e4 : 224 + c.toNat / 4096 < 240 := by omega
        simp [h1, h2, h3, utf8DecodeChar, e1, e2, e3, e4]
        omega
      · have e1 : ¬ (240 + c.toNat / 262144 < 128) := by omega
        have e2 : ¬ (240 + c.toNat / 262144 < 192) := by omega
        have e3 : ¬ (240 + c.toNat / 262144 < 224) := by omega
        have e4 : ¬ (240 + c.toNat / 262144 < 240) := by omega
        have e5 : 240 + c.toNat / 262144 < 248 := by omega
        simp [h1, h2, h3, utf8DecodeChar, e1, e2, e3, e4, e5]
        omega

theorem utf8Char_ne_nil (c : Char) : utf8Char c ≠ [] := by
  unfold utf8Char
  split <;> try simp
  split <;> try simp
  split <;> simp

/-- UTF-8 encoding of a character list is injective. -/
theorem flatMap_utf8Char_inj :
    ∀ l1 l2 : List Char, l1.flatMap utf8Char = l2.flatMap utf8Char →
      l1 = l2 := by
  intro l1
  induction l1 with
  | nil =>
    intro l2 h
    cases l2 with
    | nil => rfl
    | cons c t =>
      exfalso
      simp only [List.flatMap_nil, List.flatMap_cons] at h
      exact utf8Char_ne_nil c (List.append_eq_nil.mp h.symm).1
  | cons c1 t1 ih =>
    intro l2 h
    cases l2 with
    | nil =>
      exfalso
      simp only [List.flatMap_nil, List.flatMap_cons] at h
      exact utf8Char_ne_nil c1 (List.append_eq_nil.mp h).1
    | cons c2 t2 =>
      simp only [List.flatMap_cons] at h
      have h1 := utf8DecodeChar_utf8Char c1 (t1.flatMap utf8Char)
      rw [h, utf8DecodeChar_utf8Char c2 (t2.flatMap utf8Char)] at h1
      have hn : c2.toNat = c1.toNat := (Prod.mk.injEq _ _ _ _).mp
        (Option.some.inj h1) |>.1
      have hc : c2 = c1 := Char.ext (UInt32.toNat.inj hn)
      have hrest : t2.flatMap utf8Char = t1.flatMap utf8Char :=
        (Prod.mk.injEq _ _ _ _).mp (Option.some.inj h1) |>.2
      rw [hc, ih t2 hrest.symm]

/-- UTF-8 encoding of strings is injective. -/
theorem utf8Str_inj {s t : String} (h : utf8Str s = utf8Str t) : s = t :=
  String.ext (flatMap_utf8Char_inj s.data t.data h)

namespace ReadFromKafka

/-- Outcome of `_encode_str` on a `str`: the length-prefixed UTF-8 bytes
under the hard-coded urn chain. -/
theorem encode_str_str (s : String) :
    encode_str (.str s) = .ok ⟨strUrns, lpBytes (utf8Str s)⟩ := rfl

/-- Outcome of `_encode_str` on a non-`str`: the duck-typing
`AttributeError`. -/
theorem encode_str_nonStr (t : String) :
    encode_str (.nonStr t) = .error (.attributeError t "encode") := rfl

/-- Shape of any successful `_encode_str` result. -/
theorem encode_str_ok {v : PyVal} {cv : ConfigValue}
    (h : encode_str v = .ok cv) : cv = ⟨strUrns, lpBytes (pyUtf8D v)⟩ := by
  cases v with
  | str s => rw [encode_str_str] at h; exact (Except.ok.inj h).symm
  | nonStr t => rw [encode_str_nonStr] at h; cases h

theorem seqEncode_lp (bss : List (List Nat)) :
    seqEncode (Coder.encodeF 2 (.lengthPrefixed .bytes)) (bss.map .bytes)
      = some (lpConcat bss) := by
  induction bss with
  | nil => rfl
  | cons b bs ih =>
    show (match some (lpBytes b),
        seqEncode (Coder.encodeF 2 (.lengthPrefixed .bytes)) (bs.map .bytes)
        with
      | some b, some bs => some (b ++ bs)
      | _, _ => none) = _
    rw [ih]
    rfl

/-- What the list coder produces on a well-shaped list of byte strings:
the fixed-width count followed by the length-prefixed elements in order. -/
theorem listCoder_encode_eq (bss : List (List Nat)) :
    listCoder.encode (.array (bss.map .bytes))
      = some (bigEndian32 bss.length ++ lpConcat bss) := by
  show (match seqEncode (Coder.encodeF 2 (.lengthPrefixed .bytes))
      (bss.map .bytes) with
    | some bs => some (bigEndian32 (bss.map EncVal.bytes).length ++ bs)
    | none => none) = _
  rw [seqEncode_lp]
  simp

theorem seqEncode_kv (kvs : List (List Nat × List Nat)) :
    seqEncode
      (Coder.encodeF 5 (.tuple [.lengthPrefixed .bytes, .lengthPrefixed .bytes]))
      (kvs.map fun kv => .tuple [.bytes kv.1, .bytes kv.2])
      = some (kvConcat kvs) := by
  induction kvs with
  | nil => rfl
  | cons kv kvs ih =>
    show (match some (lpBytes kv.1 ++ (lpBytes kv.2 ++ [])),
        seqEncode
          (Coder.encodeF 5
            (.tuple [.lengthPrefixed .bytes, .lengthPrefixed .bytes]))
          (kvs.map fun kv : List Nat × List Nat =>
            EncVal.tuple [.bytes kv.1, .bytes kv.2]) with
      | some b, some bs => some (b ++ bs)
      | _, _ => none) = _
    rw [ih]
    simp [kvConcat]

/-- What the map coder produces on a well-shaped list of key/value byte
pairs: the fixed-width count followed by the tuple encodings in order,
each side independently length-prefixed. -/
theorem mapCoder_encode_eq (kvs : List (List Nat × List Nat)) :
    mapCoder.encode
        (.array (kvs.map fun kv => .tuple [.bytes kv.1, .bytes kv.2]))
      = some (bigEndian32 kvs.length ++ kvConcat kvs) := by
  show (match seqEncode
      (Coder.encodeF 5
        (.tuple [.lengthPrefixed .bytes, .lengthPrefixed .bytes]))
      (kvs.map fun kv : List Nat × List Nat =>
        EncVal.tuple [.bytes kv.1, .bytes kv.2]) with
    | some bs =>
      some (bigEndian32
        (kvs.map fun kv : List Nat × List Nat =>
          EncVal.tuple [.bytes kv.1, .bytes kv.2]).length ++ bs)
    | none => none) = _
  rw [seqEncode_kv]
  simp

/-- A successful element comprehension returns exactly the UTF-8 bytes of
the elements, in order. -/
theorem encodeElems_ok :
    ∀ {l : List PyVal} {es : List (List Nat)},
      encodeElems l = .ok es → es = l.map pyUtf8D := by
  intro l
  induction l with
  | nil => intro es h; exact (Except.ok.inj h).symm
  | cons v vs ih =>
    intro es h
    cases v with
    | nonStr t => exact absurd h (by simp [encodeElems, pyEncodeUtf8])
    | str s =>
      cases hvs : encodeElems vs with
      | error e => rw [show encodeElems (.str s :: vs)
          = .error e by simp [encodeElems, pyEncodeUtf8, hvs]] at h; cases h
      | ok bs =>
        rw [show encodeElems (.str s :: vs) = .ok (utf8Str s :: bs)
          by simp [encodeElems, pyEncodeUtf8, hvs]] at h
        rw [← Except.ok.inj h, List.map_cons, ih hvs]
        rfl

/-- A successful entry comprehension returns exactly the UTF-8 byte pairs
of the entries, in order. -/
theorem encodeEntries_ok :
    ∀ {m : List (PyVal × PyVal)} {es : List (List Nat × List Nat)},
      encodeEntries m = .ok es →
        es = m.map fun kv => (pyUtf8D kv.1, pyUtf8D kv.2) := by
  intro m
  induction m with
  | nil => intro es h; exact (Except.ok.inj h).symm
  | cons kv kvs ih =>
    intro es h
    obtain ⟨k, v⟩ := kv
    cases k with
    | nonStr t => exact absurd h (by simp [encodeEntries, pyEncodeUtf8])
    | str ks =>
      cases v with
      | nonStr t => exact absurd h (by simp [encodeEntries, pyEncodeUtf8])
      | str vs' =>
        cases hkvs : encodeEntries kvs with
        | error e => rw [show encodeEntries ((PyVal.str ks, PyVal.str vs') :: kvs)
            = .error e by simp [encodeEntries, pyEncodeUtf8, hkvs]] at h
                     cases h
        | ok rest =>
          rw [show encodeEntries ((PyVal.str ks, PyVal.str vs') :: kvs)
            = .ok ((utf8Str ks, utf8Str vs') :: rest)
            by simp [encodeEntries, pyEncodeUtf8, hkvs]] at h
          rw [← Except.ok.inj h, List.map_cons, ih hkvs]
          rfl

/-- A list containing a non-`str` makes the element comprehension raise an
`AttributeError` naming some offending element's runtime type. -/
theorem encodeElems_error :
    ∀ {l : List PyVal}, (∃ t, PyVal.nonStr t ∈ l) →
      ∃ t, encodeElems l = .error (.attributeError t "encode") := by
  intro l
  induction l with
  | nil => rintro ⟨t, ht⟩; cases ht
  | cons v vs ih =>
    rintro ⟨t, ht⟩
    cases v with
    | nonStr u => exact ⟨u, by simp [encodeElems, pyEncodeUtf8]⟩
    | str s =>
      have hvs : ∃ t, PyVal.nonStr t ∈ vs := by
        rcases List.mem_cons.mp ht with heq | hmem
        · cases heq
        · exact ⟨t, hmem⟩
      obtain ⟨u, hu⟩ := ih hvs
      exact ⟨u, by simp [encodeElems, pyEncodeUtf8, hu]⟩

/-- A map containing a non-`str` key or value makes the entry
comprehension raise an `AttributeError` naming some offending object's
runtime type. -/
theorem encodeEntries_error :
    ∀ {m : List (PyVal × PyVal)},
      (∃ kv, kv ∈ m ∧ ((∃ t, kv.1 = PyVal.nonStr t) ∨
        (∃ t, kv.2 = PyVal.nonStr t))) →
      ∃ t, encodeEntries m = .error (.attributeError t "encode") := by
  intro m
  induction m with
  | nil => rintro ⟨kv, hm, _⟩; cases hm
  | cons kv kvs ih =>
    rintro ⟨kv', hm, hbad⟩
    rcases List.mem_cons.mp hm with heq | hmem
    · subst heq
      obtain ⟨k, v⟩ := kv'
      rcases hbad with ⟨t, hk⟩ | ⟨t, hv⟩
      · cases hk
        exact ⟨t, by simp [encodeEntries, pyEncodeUtf8]⟩
      · cases hv
        cases k with
        | nonStr u => exact ⟨u, by simp [encodeEntries, pyEncodeUtf8]⟩
        | str ks => exact ⟨t, by simp [encodeEntries, pyEncodeUtf8]⟩
    · obtain ⟨u, hu⟩ := ih ⟨kv', hmem, hbad⟩
      obtain ⟨k, v⟩ := kv
      cases k with
      | nonStr w => exact ⟨w, by simp [encodeEntries, pyEncodeUtf8]⟩
      | str ks =>
        cases v with
        | nonStr w => exact ⟨w, by simp [encodeEntries, pyEncodeUtf8]⟩
        | str vs' => exact ⟨u, by simp [encodeEntries, pyEncodeUtf8, hu]⟩

/-- Shape of any successful `_encode_list` result. -/
theorem encode_list_ok {l : List PyVal} {cv : ConfigValue}
    (h : encode_list l = .ok cv) :
    cv = ⟨listUrns, bigEndian32 l.length ++ lpConcat (l.map pyUtf8D)⟩ := by
  unfold encode_list at h
  cases hes : encodeElems l with
  | error e => rw [hes] at h; cases h
  | ok es =>
    rw [hes] at h
    simp only [listCoder_encode_eq] at h
    rw [← Except.ok.inj h, encodeElems_ok hes]
    simp

/-- Shape of any successful `_encode_map` result. -/
theorem encode_map_ok {m : List (PyVal × PyVal)} {cv : ConfigValue}
    (h : encode_map m = .ok cv) :
    cv = ⟨mapUrns, bigEndian32 m.length
      ++ kvConcat (m.map fun kv => (pyUtf8D kv.1, pyUtf8D kv.2))⟩ := by
  unfold encode_map at h
  cases hes : encodeEntries m with
  | error e => rw [hes] at h; cases h
  | ok es =>
    rw [hes] at h
    simp only [mapCoder_encode_eq] at h
    rw [← Except.ok.inj h, encodeEntries_ok hes]
    simp

theorem kvConcat_length (es : List (List Nat × List Nat)) :
    (kvConcat es).length
      = (es.map fun kv => (lpBytes kv.1).length + (lpBytes kv.2).length).sum := by
  induction es with
  | nil => rfl
  | cons kv kvs ih => simp [kvConcat, ih]; omega

/-- C1 (counterexample): the urn chains hard-coded in `kafka.py` are
shorter than the Coder trees they accompany — the scalar chain has one
identifier for the two Coder nodes of `LengthPrefixed(Bytes)`, and the
list chain has two identifiers for the three Coder nodes of
`Iterable(LengthPrefixed(Bytes))` — so the emitted chain is not a
pre-order traversal with one identifier per Coder node. -/
theorem urn_chain_shorter_than_coder_tree :
    encode_str (.str "x") = .ok ⟨strUrns, [1, 120]⟩ ∧
    encode_list [.str "x"] = .ok ⟨listUrns, [0, 0, 0, 1, 1, 120]⟩ ∧
    strUrns.length = 1 ∧ Coder.size strCoder = 2 ∧
    listUrns.length = 2 ∧ Coder.size listCoder = 3 ∧
    nodePreorder strCoder ≠ strUrns ∧
    nodePreorder listCoder ≠ listUrns := by
  decide

/-- C1 (amended): the identifier chain emitted alongside each payload
equals the pre-order traversal of the builder's Coder tree in which a
`LengthPrefixed(Bytes)` subtree contributes the single identifier
`beam:coder:bytes:v1` (the `LengthPrefixed` wrapper emits no identifier of
its own); the node's identifier comes first, then each child's chain in
declaration order. -/
theorem urn_chain_is_collapsed_preorder :
    ∀ (v : PyVal) (l : List PyVal) (m : List (PyVal × PyVal))
      (cv1 cv2 cv3 : ConfigValue),
      encode_str v = .ok cv1 → encode_list l = .ok cv2 →
      encode_map m = .ok cv3 →
      cv1.coder_urn = collapsedChain strCoder ∧
      cv2.coder_urn = collapsedChain listCoder ∧
      cv3.coder_urn = collapsedChain mapCoder := by
  intro v l m cv1 cv2 cv3 h1 h2 h3
  rw [encode_str_ok h1, encode_list_ok h2, encode_map_ok h3]
  exact ⟨rfl, rfl, rfl⟩

/-- Witness for the amended C1 theorem at concrete inputs. -/
theorem urn_chain_is_collapsed_preorder_witness :
    (⟨strUrns, [1, 97]⟩ : ConfigValue).coder_urn = collapsedChain strCoder ∧
    (⟨listUrns, [0, 0, 0, 0]⟩ : ConfigValue).coder_urn
      = collapsedChain listCoder ∧
    (⟨mapUrns, [0, 0, 0, 0]⟩ : ConfigValue).coder_urn
      = collapsedChain mapCoder :=
  urn_chain_is_collapsed_preorder (.str "a") [] []
    ⟨strUrns, [1, 97]⟩ ⟨listUrns, [0, 0, 0, 0]⟩ ⟨mapUrns, [0, 0, 0, 0]⟩
    (by decide) (by decide) (by decide)

/-- C2: encoding the list `["topic-a", "topic-b"]` yields the urn chain
`[iterable, length-prefixed-bytes]` and a payload whose first field is the
count 2, followed by the length-prefixed UTF-8 bytes of `topic-a` and then
of `topic-b`, in that order. -/
theorem encode_list_topics_scenario :
    encode_list [.str "topic-a", .str "topic-b"]
      = .ok ⟨["beam:coder:iterable:v1", "beam:coder:bytes:v1"],
          bigEndian32 2
            ++ (varint (utf8Str "topic-a").length ++ utf8Str "topic-a")
            ++ (varint (utf8Str "topic-b").length ++ utf8Str "topic-b")⟩ := by
  decide

/-- C3: encoding the map `{"bootstrap.servers": "localhost:9092"}` yields
the urn chain `[iterable, key-value-pair, length-prefixed-bytes,
length-prefixed-bytes]` and a payload with count 1 followed by one
key/value tuple, the key and the value each independently length-prefixed
UTF-8 bytes. -/
theorem encode_map_bootstrap_scenario :
    encode_map [(.str "bootstrap.servers", .str "localhost:9092")]
      = .ok ⟨["beam:coder:iterable:v1", "beam:coder:kv:v1",
              "beam:coder:bytes:v1", "beam:coder:bytes:v1"],
          bigEndian32 1
            ++ (varint (utf8Str "bootstrap.servers").length
                  ++ utf8Str "bootstrap.servers")
            ++ (varint (utf8Str "localhost:9092").length
                  ++ utf8Str "localhost:9092")⟩ := by
  decide

/-- C4: for every string, the scalar-string encoder produces exactly the
`LengthPrefixed(Bytes)` payload over the UTF-8 bytes of the string: the
encoded length of the UTF-8 bytes, followed immediately by those bytes,
with no other framing. -/
theorem encode_str_is_length_prefixed_utf8 (s : String) :
    encode_str (.str s)
      = .ok ⟨strUrns, varint (utf8Str s).length ++ utf8Str s⟩ := rfl

/-- C5 (counterexample): the error raised on a non-string element is the
duck-typed `AttributeError` of the failed `.encode` call; it is the same
exception whether the offending element sits at index 0, index 1, or under
a key, so it identifies neither a position nor a key, and it is not a
structured `EncodingError`. -/
theorem nonstr_error_carries_no_position :
    encode_list [.nonStr "int"] = .error (.attributeError "int" "encode") ∧
    encode_list [.str "a", .nonStr "int"]
      = .error (.attributeError "int" "encode") ∧
    encode_map [(.str "k", .nonStr "int")]
      = .error (.attributeError "int" "encode") ∧
    encode_map [(.nonStr "int", .str "v")]
      = .error (.attributeError "int" "encode") := by
  decide

/-- C5 (amended): a list containing a non-string element, or a map
containing a non-string key or value, makes the encoder fail with the
`AttributeError` raised by the duck-typed `.encode` call (naming the
offending object's runtime type, not its position or key); it never
substitutes a default and never drops the element — no `ConfigValue` is
produced. -/
theorem encode_collections_reject_nonstr :
    ∀ (l : List PyVal) (m : List (PyVal × PyVal)),
      ((∃ t, PyVal.nonStr t ∈ l) →
        ∃ t, encode_list l = .error (.attributeError t "encode")) ∧
      ((∃ kv, kv ∈ m ∧ ((∃ t, kv.1 = PyVal.nonStr t) ∨
          (∃ t, kv.2 = PyVal.nonStr t))) →
        ∃ t, encode_map m = .error (.attributeError t "encode")) := by
  intro l m
  constructor
  · intro hl
    obtain ⟨t, ht⟩ := encodeElems_error hl
    exact ⟨t, by simp [encode_list, ht]⟩
  · intro hm
    obtain ⟨t, ht⟩ := encodeEntries_error hm
    exact ⟨t, by simp [encode_map, ht]⟩

/-- Witness for the amended C5 theorem at concrete inputs. -/
theorem encode_collections_reject_nonstr_witness :
    (∃ t, encode_list [PyVal.nonStr "int"]
      = .error (.attributeError t "encode")) ∧
    (∃ t, encode_map [(PyVal.str "k", PyVal.nonStr "NoneType")]
      = .error (.attributeError t "encode")) :=
  ⟨(encode_collections_reject_nonstr [PyVal.nonStr "int"] []).1
      ⟨"int", by decide⟩,
   (encode_collections_reject_nonstr []
        [(PyVal.str "k", PyVal.nonStr "NoneType")]).2
      ⟨(PyVal.str "k", PyVal.nonStr "NoneType"), by decide,
        Or.inr ⟨"NoneType", rfl⟩⟩⟩

/-- C6: the empty list encodes to an iterable payload whose count field is
0 with zero element bytes, and the empty map encodes to the same
iterable-level payload with zero tuple entries. -/
theorem encode_empty_collections :
    encode_list [] = .ok ⟨listUrns, bigEndian32 0 ++ []⟩ ∧
    encode_map [] = .ok ⟨mapUrns, bigEndian32 0 ++ []⟩ ∧
    bigEndian32 0 = [0, 0, 0, 0] := by
  decide

/-- C7: distinct strings always produce distinct scalar payloads — the
`LengthPrefixed(Bytes)` encoding over UTF-8 is injective. -/
theorem encode_str_payload_injective :
    ∀ (s1 s2 : String) (cv1 cv2 : ConfigValue), s1 ≠ s2 →
      encode_str (.str s1) = .ok cv1 → encode_str (.str s2) = .ok cv2 →
      cv1.payload ≠ cv2.payload := by
  intro s1 s2 cv1 cv2 hne h1 h2 hpay
  rw [encode_str_ok h1, encode_str_ok h2] at hpay
  simp only [pyUtf8D] at hpay
  have p1 : parseVarint (lpBytes (utf8Str s1))
      = some ((utf8Str s1).length, utf8Str s1) := parseVarint_varint _ _
  have p2 : parseVarint (lpBytes (utf8Str s2))
      = some ((utf8Str s2).length, utf8Str s2) := parseVarint_varint _ _
  rw [hpay, p2] at p1
  have : utf8Str s2 = utf8Str s1 :=
    ((Prod.mk.injEq _ _ _ _).mp (Option.some.inj p1)).2
  exact hne (utf8Str_inj this.symm)

/-- Witness for the C7 theorem at concrete inputs. -/
theorem encode_str_payload_injective_witness :
    ("a" : String) ≠ "b" ∧
    (⟨strUrns, [1, 97]⟩ : ConfigValue).payload
      ≠ (⟨strUrns, [1, 98]⟩ : ConfigValue).payload :=
  ⟨by decide,
   encode_str_payload_injective "a" "b" ⟨strUrns, [1, 97]⟩ ⟨strUrns, [1, 98]⟩
     (by decide) (by decide) (by decide)⟩

/-- C8: encoding the same logical value twice yields identical results for
the scalar and list encoders (a pure function of the input), and for the
map encoder any two runs over entry lists that are permutations of each
other (the same logical dict content under a different iteration order)
yield the same urn chain and the same payload length. -/
theorem encode_deterministic :
    ∀ (v : PyVal) (l : List PyVal) (m1 m2 : List (PyVal × PyVal)),
      m1.Perm m2 →
      encode_str v = encode_str v ∧ encode_list l = encode_list l ∧
      ∀ cv1 cv2, encode_map m1 = .ok cv1 → encode_map m2 = .ok cv2 →
        cv1.coder_urn = cv2.coder_urn ∧
        cv1.payload.length = cv2.payload.length := by
  intro v l m1 m2 hperm
  refine ⟨rfl, rfl, ?_⟩
  intro cv1 cv2 h1 h2
  rw [encode_map_ok h1, encode_map_ok h2]
  refine ⟨rfl, ?_⟩
  simp only [List.length_append, kvConcat_length, List.map_map]
  have hlen : m1.length = m2.length := hperm.length_eq
  have hsum := (hperm.map
    ((fun kv : List Nat × List Nat =>
        (lpBytes kv.1).length + (lpBytes kv.2).length)
      ∘ (fun kv : PyVal × PyVal => (pyUtf8D kv.1, pyUtf8D kv.2)))).sum_eq
  rw [hlen, hsum]

/-- Witness for the C8 theorem at concrete inputs (a two-entry dict
iterated in both orders). -/
theorem encode_deterministic_witness :
    ([((PyVal.str "a"), (PyVal.str "xy")), ((PyVal.str "b"), (PyVal.str "z"))].Perm
      [((PyVal.str "b"), (PyVal.str "z")), ((PyVal.str "a"), (PyVal.str "xy"))]) ∧
    (⟨mapUrns, [0, 0, 0, 2, 1, 97, 2, 120, 121, 1, 98, 1, 122]⟩
        : ConfigValue).coder_urn
      = (⟨mapUrns, [0, 0, 0, 2, 1, 98, 1, 122, 1, 97, 2, 120, 121]⟩
        : ConfigValue).coder_urn ∧
    (⟨mapUrns, [0, 0, 0, 2, 1, 97, 2, 120, 121, 1, 98, 1, 122]⟩
        : ConfigValue).payload.length
      = (⟨mapUrns, [0, 0, 0, 2, 1, 98, 1, 122, 1, 97, 2, 120, 121]⟩
        : ConfigValue).payload.length :=
  ⟨List.Perm.swap _ _ _,
   (encode_deterministic (.str "a") []
      [((PyVal.str "a"), (PyVal.str "xy")), ((PyVal.str "b"), (PyVal.str "z"))]
      [((PyVal.str "b"), (PyVal.str "z")), ((PyVal.str "a"), (PyVal.str "xy"))]
      (List.Perm.swap _ _ _)).2.2
     ⟨mapUrns, [0, 0, 0, 2, 1, 97, 2, 120, 121, 1, 98, 1, 122]⟩
     ⟨mapUrns, [0, 0, 0, 2, 1, 98, 1, 122, 1, 97, 2, 120, 121]⟩
     (by decide) (by decide)⟩

/-- C9: building the configuration is all-or-nothing — `expand` on a
`PBegin` succeeds exactly when all four named arguments encode
successfully, and the first failing encode call's exception is raised to
the caller with no configuration produced. -/
theorem expand_all_or_nothing (t : Transform) :
    ((∃ cfg, expand t .pBegin = .ok cfg) ↔
      (∃ a, encode_map t.consumer_config = .ok a) ∧
      (∃ b, encode_list t.topics = .ok b) ∧
      (∃ c, encode_str t.key_deserializer = .ok c) ∧
      (∃ d, encode_str t.value_deserializer = .ok d)) ∧
    (∀ e, encode_map t.consumer_config = .error e →
      expand t .pBegin = .error e) ∧
    (∀ a e, encode_map t.consumer_config = .ok a →
      encode_list t.topics = .error e → expand t .pBegin = .error e) ∧
    (∀ a b e, encode_map t.consumer_config = .ok a →
      encode_list t.topics = .ok b →
      encode_str t.key_deserializer = .error e →
      expand t .pBegin = .error e) ∧
    (∀ a b c e, encode_map t.consumer_config = .ok a →
      encode_list t.topics = .ok b →
      encode_str t.key_deserializer = .ok c →
      encode_str t.value_deserializer = .error e →
      expand t .pBegin = .error e) := by
  cases h1 : encode_map t.consumer_config with
  | error e => simp [expand, h1]
  | ok a =>
    cases h2 : encode_list t.topics with
    | error e => simp [expand, h1, h2]
    | ok b =>
      cases h3 : encode_str t.key_deserializer with
      | error e => simp [expand, h1, h2, h3]
      | ok c =>
        cases h4 : encode_str t.value_deserializer with
        | error e => simp [expand, h1, h2, h3, h4]
        | ok d => simp [expand, h1, h2, h3, h4]

/-- Witness for the C9 theorem: a failing `consumer_config` encode aborts
`expand` with that same exception. -/
theorem expand_all_or_nothing_witness :
    expand ⟨[(PyVal.nonStr "int", PyVal.str "x")], [], .str "a", .str "b",
        "localhost:8097"⟩ .pBegin
      = .error (.attributeError "int" "encode") :=
  (expand_all_or_nothing _).2.1 _ (by decide)

/-- C10: any input other than a `PBegin` makes `expand` raise
"ReadFromKafka must be a root transform" before any argument is encoded —
the same exception whatever the four arguments hold. -/
theorem expand_rejects_non_root (t : Transform) :
    expand t .pCollection
      = .error (.exn "ReadFromKafka must be a root transform") := rfl

end ReadFromKafka

end Beam
